import Mathlib

/-!
Shallow embedding of the `gh-repo-research` repository collector:
the GitHub-side types and the marker-file classifier
(`internal/github`), the database upsert and search-state store
(`internal/database/models.go`), and the page-processing loop of
`cmd/collect_github_repos/main.go`.  Machine integers are modelled by
`Int`/`Nat`; wall-clock timestamps by an explicit `Nat` tick passed to
every write; SQL errors and GraphQL transport errors by explicit
oracles supplied as function arguments.
-/

namespace GhRepoResearch

/-! ### Character-level string helpers

`strings.ToLower` and `strings.Contains` from the Go standard library,
modelled on `List Char`. -/

/-- Lower-case a string, character by character (`strings.ToLower`). -/
def lowerChars (s : String) : List Char :=
  s.toList.map Char.toLower

/-- Does `pat` occur at the very start of `s`? -/
def leadsWith : List Char → List Char → Bool
  | [], _ => true
  | _ :: _, [] => false
  | a :: pa, b :: sb => a == b && leadsWith pa sb

/-- Does `pat` occur somewhere inside `s` (`strings.Contains`)? -/
def hasSub (pat : List Char) : List Char → Bool
  | [] => leadsWith pat []
  | c :: cs => leadsWith pat (c :: cs) || hasSub pat cs

/-- `strings.Split` from the Go standard library, for a one-character
separator: `splitOnChar sep s` cuts `s` at every occurrence of `sep`;
the empty string yields one empty part. -/
def splitOnChar (sep : Char) : List Char → List (List Char)
  | [] => [[]]
  | c :: cs =>
    let r := splitOnChar sep cs
    if c == sep then [] :: r
    else match r with
      | [] => [c] :: []
      | h :: t => (c :: h) :: t

/-! ### GitHub API types (`internal/github/types.go`) -/

namespace Github

/-- A repository node decoded from the search query
(`github.Repository` in `types.go`; `PrimaryLanguage` is flattened to
its single `Name` field). -/
structure Repository where
  url : String
  fullName : String
  stargazerCount : Int
  primaryLanguage : Option String
  deriving Repr, DecidableEq

/-- Pagination metadata of one search page (`github.PageInfo`). -/
structure PageInfo where
  hasNextPage : Bool
  endCursor : Option String
  deriving Repr, DecidableEq

/-- One decoded page of search results (`github.RepositoriesResponse`). -/
structure RepositoriesResponse where
  repositories : List Repository
  pageInfo : PageInfo
  deriving Repr, DecidableEq

/-! ### Marker-file classifier (`HasDockerfile` and `isDockerfile`) -/

/-- `isDockerfile` from the GitHub client: lower-case the file name and
test whether it contains the substring `dockerfile`. -/
def isDockerfile (filename : String) : Bool :=
  hasSub "dockerfile".toList (lowerChars filename)

/-- A one-level-deep entry of a root tree entry, as selected by
`GetRepositoryFilesQuery` (name and type only, no children). -/
structure SubEntry where
  name : String
  type : String
  deriving Repr, DecidableEq

/-- A root-level entry of the default branch tree, as selected by
`GetRepositoryFilesQuery`: name, type, and the one-level-deep entries
of its object when it is a tree. -/
structure RootEntry where
  name : String
  type : String
  subEntries : List SubEntry
  deriving Repr, DecidableEq

/-- The scan performed by `Client.HasDockerfile` over the decoded
response entries: return true on the first root-level name match, or —
for entries whose type is `tree` — on the first one-level-deep name
match; otherwise false. -/
def HasDockerfile (entries : List RootEntry) : Bool :=
  entries.any fun e =>
    isDockerfile e.name ||
      (e.type == "tree" && e.subEntries.any fun s => isDockerfile s.name)

end Github

/-! ### Repository file trees of arbitrary depth

`GetRepositoryFilesQuery` selects only two levels of the default-branch
tree; `toResponse` is that selection, applied to a file tree of
arbitrary depth. -/

/-- A repository file tree entry of arbitrary depth: a name, a git
object type (`blob` or `tree`), and child entries. -/
inductive TreeEntry where
  | node (name : String) (type : String) (children : List TreeEntry)

/-- Name of a tree entry. -/
def TreeEntry.name : TreeEntry → String
  | .node n _ _ => n

/-- Git object type of a tree entry. -/
def TreeEntry.type : TreeEntry → String
  | .node _ ty _ => ty

/-- Children of a tree entry. -/
def TreeEntry.children : TreeEntry → List TreeEntry
  | .node _ _ cs => cs

/-- The one-level selection of an entry: name and type only. -/
def TreeEntry.toSub : TreeEntry → Github.SubEntry
  | .node n ty _ => ⟨n, ty⟩

/-- The two-level selection of a root entry performed by
`GetRepositoryFilesQuery`: name, type, and the names and types of the
direct children; anything deeper is not fetched. -/
def TreeEntry.toRoot : TreeEntry → Github.RootEntry
  | .node n ty cs => ⟨n, ty, cs.map TreeEntry.toSub⟩

/-- The decoded response for a whole root listing. -/
def toResponse (roots : List TreeEntry) : List Github.RootEntry :=
  roots.map TreeEntry.toRoot

/-- The marker substring searched for by the classifier. -/
def markerChars : List Char := "dockerfile".toList

/-- The spec predicate: the entry name contains the marker substring
case-insensitively. -/
def nameMatchesMarker (n : String) : Prop :=
  ∃ l r, lowerChars n = l ++ markerChars ++ r

/-- A synthetic tree whose only marker-named entry sits two levels below
the root: `src/nested/Dockerfile`. -/
def deepTree : List TreeEntry :=
  [.node "src" "tree" [.node "nested" "tree" [.node "Dockerfile" "blob" []]]]

/-! ### Database layer (`internal/database/models.go`) -/

namespace Database

/-- A row of the `repositories` table (`database.Repository`): the
serial `id` and the two timestamp columns are assigned by the database
on first insert. -/
structure Repository where
  id : Nat
  url : String
  nameWithOwner : String
  stargazerCount : Int
  primaryLanguage : Option String
  hasDockerfile : Bool
  createdAt : Nat
  updatedAt : Nat
  deriving Repr, DecidableEq

/-- The `repositories` table: its rows plus the next serial id. -/
structure ReposTable where
  rows : List Repository
  nextId : Nat
  deriving Repr, DecidableEq

/-- `DB.InsertRepository`: `INSERT ... ON CONFLICT (url) DO UPDATE SET
name_with_owner, stargazer_count, primary_language, has_dockerfile,
updated_at = CURRENT_TIMESTAMP`.  The input row's `id`, `createdAt` and
`updatedAt` are ignored, exactly as the SQL inserts only the five value
columns; `now` is the current timestamp. -/
def InsertRepository (t : ReposTable) (r : Repository) (now : Nat) : ReposTable :=
  if t.rows.any (fun row => row.url == r.url) then
    { t with rows := t.rows.map fun row =>
        if row.url == r.url then
          { row with
            nameWithOwner := r.nameWithOwner
            stargazerCount := r.stargazerCount
            primaryLanguage := r.primaryLanguage
            hasDockerfile := r.hasDockerfile
            updatedAt := now }
        else row }
  else
    { rows := t.rows ++
        [{ id := t.nextId
           url := r.url
           nameWithOwner := r.nameWithOwner
           stargazerCount := r.stargazerCount
           primaryLanguage := r.primaryLanguage
           hasDockerfile := r.hasDockerfile
           createdAt := now
           updatedAt := now }]
      nextId := t.nextId + 1 }

/-- A row of the `search_states` table (`database.SearchState`). -/
structure SearchState where
  id : Nat
  sessionId : String
  query : String
  currentCursor : Option String
  totalFetched : Nat
  isCompleted : Bool
  createdAt : Nat
  updatedAt : Nat
  deriving Repr, DecidableEq

/-- The `search_states` table: its rows plus the next serial id. -/
structure SessionStore where
  rows : List SearchState
  nextId : Nat
  deriving Repr, DecidableEq

/-- `DB.SaveSearchState`: `INSERT ... ON CONFLICT (session_id) DO
UPDATE SET current_cursor, total_fetched, is_completed, updated_at =
CURRENT_TIMESTAMP`.  Note the conflict branch does not touch the
`query` column. -/
def SaveSearchState (s : SessionStore) (st : SearchState) (now : Nat) : SessionStore :=
  if s.rows.any (fun row => row.sessionId == st.sessionId) then
    { s with rows := s.rows.map fun row =>
        if row.sessionId == st.sessionId then
          { row with
            currentCursor := st.currentCursor
            totalFetched := st.totalFetched
            isCompleted := st.isCompleted
            updatedAt := now }
        else row }
  else
    { rows := s.rows ++
        [{ st with id := s.nextId, createdAt := now, updatedAt := now }]
      nextId := s.nextId + 1 }

/-- A database-level error surfaced by a query. -/
structure DbError where
  message : String
  deriving Repr, DecidableEq

/-- `DB.LoadSearchState`: select the row whose `session_id` matches;
`sql.ErrNoRows` is translated to the pair `(nil, nil)`, i.e. an
explicit absent result rather than an error. -/
def LoadSearchState (s : SessionStore) (sessionId : String) :
    Except DbError (Option SearchState) :=
  match s.rows.find? (fun row => row.sessionId == sessionId) with
  | some st => .ok (some st)
  | none => .ok none

end Database

/-! ### The collector loop (`cmd/collect_github_repos/main.go`)

The loop body is embedded as a pure function.  Two oracles stand for
the effectful calls whose outcomes the loop branches on:
`classify owner name` for `client.HasDockerfile` (a transport error is
`Except.error`), and `insertFails url` for a store-write failure of
`db.InsertRepository`.  Console output is modelled as a list of log
entries. -/

/-- A console line printed by the collector for one repository. -/
inductive LogEntry where
  | classifyError (fullName message : String)
  | saveError (fullName : String)
  | saved (fullName : String)
  deriving Repr, DecidableEq

/-- The oracle for `client.HasDockerfile owner name`. -/
def ClassifyOracle : Type := String → String → Except String Bool

/-- The oracle deciding whether `db.InsertRepository` fails for a URL. -/
def InsertOracle : Type := String → Bool

/-- `strings.Split(repo.FullName, "/")` as performed by the loop body. -/
def splitParts (s : String) : List (List Char) :=
  splitOnChar '/' s.toList

/-- The body of the inner `for _, repo := range result.Repositories`
loop of `main`: split the full name (skip unless exactly two parts),
call the classifier (on error, log and fall back to `false`), build the
database row and insert it (on error, log and skip), else log success. -/
def processRepo (classify : ClassifyOracle) (insertFails : InsertOracle)
    (now : Nat) (t : Database.ReposTable) (r : Github.Repository) :
    Database.ReposTable × List LogEntry :=
  match splitParts r.fullName with
  | [owner, name] =>
    let cls := classify (String.mk owner) (String.mk name)
    let hasDockerfile := match cls with
      | .ok b => b
      | .error _ => false
    let clsLog : List LogEntry := match cls with
      | .ok _ => []
      | .error e => [.classifyError r.fullName e]
    let dbRepo : Database.Repository :=
      { id := 0
        url := r.url
        nameWithOwner := r.fullName
        stargazerCount := r.stargazerCount
        primaryLanguage := r.primaryLanguage
        hasDockerfile := hasDockerfile
        createdAt := 0
        updatedAt := 0 }
    if insertFails r.url then
      (t, clsLog ++ [.saveError r.fullName])
    else
      (Database.InsertRepository t dbRepo now, clsLog ++ [.saved r.fullName])
  | _ => (t, [])

/-- The inner loop over one page's repositories, in order. -/
def processPage (classify : ClassifyOracle) (insertFails : InsertOracle)
    (now : Nat) (t : Database.ReposTable) :
    List Github.Repository → Database.ReposTable × List LogEntry
  | [] => (t, [])
  | r :: rs =>
    let step := processRepo classify insertFails now t r
    let rest := processPage classify insertFails now step.1 rs
    (rest.1, step.2 ++ rest.2)

/-- The pagination decision at the bottom of the outer `for` loop of
`main`: `if !HasNextPage break; if EndCursor == nil break;
currentCursor = *EndCursor`. -/
def nextCursorIfContinue (p : Github.PageInfo) : Option String :=
  if !p.hasNextPage then none
  else match p.endCursor with
    | none => none
    | some c => some c

/-- The outer pagination loop of `main`, run against a script of
successive fetch results; returns the final table and the number of
pages processed. -/
def runLoop (classify : ClassifyOracle) (insertFails : InsertOracle)
    (now : Nat) (t : Database.ReposTable) :
    List Github.RepositoriesResponse → Database.ReposTable × Nat
  | [] => (t, 0)
  | p :: rest =>
    let t1 := (processPage classify insertFails now t p.repositories).1
    match nextCursorIfContinue p.pageInfo with
    | none => (t1, 1)
    | some _ =>
      let k := runLoop classify insertFails now t1 rest
      (k.1, k.2 + 1)

/-! ### The session-aware orchestrator

The repository's session-aware collection command is not among the
source files here; only its store contract (`SaveSearchState`,
`LoadSearchState` in `models.go`, otherwise uncalled) is.  The
orchestrator itself is therefore modelled from the specification's
state machine, reusing the per-repository loop body embedded from
`main.go` and the store operations embedded from `models.go`. -/

/-- Modelled from the spec: the successful page step of the session
orchestrator's page loop — for every candidate repository in the batch,
classify it, upsert it and increment total-fetched; then advance the
cursor to the page's next cursor, compute `completed = not has-more`,
and save the session-progress record.  Returns the updated repository
table, the updated session store and the in-memory session record. -/
def pageStep (classify : ClassifyOracle) (insertFails : InsertOracle)
    (now : Nat) (st : Database.SearchState) (store : Database.SessionStore)
    (t : Database.ReposTable) (p : Github.RepositoriesResponse) :
    Database.ReposTable × Database.SessionStore × Database.SearchState :=
  let t1 := (processPage classify insertFails now t p.repositories).1
  let st1 : Database.SearchState :=
    { st with
      currentCursor := p.pageInfo.endCursor
      totalFetched := st.totalFetched + p.repositories.length
      isCompleted := !p.pageInfo.hasNextPage }
  (t1, Database.SaveSearchState store st1 now, st1)

/-- Modelled from the spec: the page-fetch failure step of the session
orchestrator — persist the session-progress record with the last
known-good cursor and `completed = false` before terminating. -/
def fetchFailureStep (now : Nat) (st : Database.SearchState)
    (store : Database.SessionStore) : Database.SessionStore :=
  Database.SaveSearchState store { st with isCompleted := false } now

/-- The outcome reported by one run of the session orchestrator. -/
inductive RunOutcome where
  | fatalUnknownSession (sessionId : String)
  | alreadyCompleted (total : Nat)
  | halted (sessionId : String)
  | finished (total : Nat)
  deriving Repr, DecidableEq

/-- Modelled from the spec: the session orchestrator's page loop, run
against a script of fetch outcomes (`none` is a failed page fetch).
Returns the outcome, the final session store, the final repository
table and the number of page fetches issued. -/
def sessionLoop (classify : ClassifyOracle) (insertFails : InsertOracle)
    (now : Nat) (st : Database.SearchState) (store : Database.SessionStore)
    (t : Database.ReposTable) :
    List (Option Github.RepositoriesResponse) →
      RunOutcome × Database.SessionStore × Database.ReposTable × Nat
  | [] => (.halted st.sessionId, fetchFailureStep now st store, t, 1)
  | none :: _ => (.halted st.sessionId, fetchFailureStep now st store, t, 1)
  | some p :: rest =>
    let step := pageStep classify insertFails now st store t p
    if step.2.2.isCompleted then
      (.finished step.2.2.totalFetched, step.2.1, step.1, 1)
    else
      let k := sessionLoop classify insertFails now step.2.2 step.2.1 step.1 rest
      (k.1, k.2.1, k.2.2.1, k.2.2.2 + 1)

/-- Modelled from the spec: the Start transition of the session
orchestrator when a session identifier is supplied — load the stored
record; an unknown identifier is fatal; a record with
`completed = true` is a terminal no-op reporting the stored total and
issuing no page fetch; otherwise the stored record is adopted and the
page loop runs. -/
def resumeRun (classify : ClassifyOracle) (insertFails : InsertOracle)
    (now : Nat) (store : Database.SessionStore) (t : Database.ReposTable)
    (sessionId : String)
    (script : List (Option Github.RepositoriesResponse)) :
    RunOutcome × Database.SessionStore × Database.ReposTable × Nat :=
  match Database.LoadSearchState store sessionId with
  | .error _ => (.fatalUnknownSession sessionId, store, t, 0)
  | .ok none => (.fatalUnknownSession sessionId, store, t, 0)
  | .ok (some st) =>
    if st.isCompleted then
      (.alreadyCompleted st.totalFetched, store, t, 0)
    else
      sessionLoop classify insertFails now st store t script

/-! ### Concrete instances used to exercise the theorems -/

/-- A classifier oracle that always answers `true`. -/
def wClassifyTrue : ClassifyOracle := fun _ _ => .ok true

/-- A classifier oracle that always fails with a transport error. -/
def wClassifyBoom : ClassifyOracle := fun _ _ => .error "boom"

/-- An insert oracle under which every store write succeeds. -/
def wInsertOk : InsertOracle := fun _ => false

/-- An insert oracle under which exactly the write for
`https://r1` fails. -/
def wInsertFailR1 : InsertOracle := fun u => u == "https://r1"

/-- A sample search-result repository with a well-formed full name. -/
def wRepo1 : Github.Repository :=
  { url := "https://r1", fullName := "own/alpha",
    stargazerCount := 10, primaryLanguage := some "Go" }

/-- A second sample repository with a well-formed full name. -/
def wRepo2 : Github.Repository :=
  { url := "https://r2", fullName := "own/beta",
    stargazerCount := 20, primaryLanguage := none }

/-- A sample repository whose full name has no slash. -/
def wRepoBad : Github.Repository :=
  { url := "https://r3", fullName := "noslash",
    stargazerCount := 5, primaryLanguage := none }

/-- The empty repositories table. -/
def wTable : Database.ReposTable := { rows := [], nextId := 0 }

/-- A database row for `wRepo1` as first observed. -/
def wDbRepo1 : Database.Repository :=
  { id := 0, url := "https://r1", nameWithOwner := "own/alpha",
    stargazerCount := 10, primaryLanguage := some "Go",
    hasDockerfile := false, createdAt := 0, updatedAt := 0 }

/-- A re-observation of the same URL with different mutable fields. -/
def wDbRepo1b : Database.Repository :=
  { id := 0, url := "https://r1", nameWithOwner := "own/alpha2",
    stargazerCount := 25, primaryLanguage := some "Rust",
    hasDockerfile := true, createdAt := 0, updatedAt := 0 }

/-- An in-progress session record. -/
def wState : Database.SearchState :=
  { id := 1, sessionId := "sess-1", query := "docker",
    currentCursor := some "C1", totalFetched := 100,
    isCompleted := false, createdAt := 0, updatedAt := 0 }

/-- A completed session record. -/
def wStateDone : Database.SearchState :=
  { id := 2, sessionId := "sess-2", query := "docker",
    currentCursor := some "C9", totalFetched := 300,
    isCompleted := true, createdAt := 0, updatedAt := 0 }

/-- A session store holding both sample sessions. -/
def wStore : Database.SessionStore :=
  { rows := [wState, wStateDone], nextId := 3 }

/-- A sample fetched page carrying both well-formed repositories. -/
def wPage : Github.RepositoriesResponse :=
  { repositories := [wRepo1, wRepo2],
    pageInfo := { hasNextPage := true, endCursor := some "CUR2" } }

/-! ## Lemmas -/

theorem leadsWith_iff (pat s : List Char) :
    leadsWith pat s = true ↔ ∃ r, s = pat ++ r := by
  induction pat generalizing s with
  | nil => simp [leadsWith]
  | cons a pa ih =>
    cases s with
    | nil => simp [leadsWith]
    | cons b sb =>
      simp only [leadsWith, Bool.and_eq_true, beq_iff_eq, ih]
      constructor
      · rintro ⟨rfl, r, rfl⟩
        exact ⟨r, rfl⟩
      · rintro ⟨r, h⟩
        cases h
        exact ⟨rfl, r, rfl⟩

theorem hasSub_iff (pat s : List Char) :
    hasSub pat s = true ↔ ∃ l r, s = l ++ pat ++ r := by
  induction s with
  | nil =>
    simp only [hasSub, leadsWith_iff]
    constructor
    · rintro ⟨r, h⟩
      exact ⟨[], r, by simpa using h⟩
    · rintro ⟨l, r, h⟩
      rcases List.append_eq_nil.mp (List.append_eq_nil.mp h.symm).1 with ⟨rfl, rfl⟩
      exact ⟨r, by simpa using h⟩
  | cons c cs ih =>
    simp only [hasSub, Bool.or_eq_true, leadsWith_iff, ih]
    constructor
    · rintro (⟨r, h⟩ | ⟨l, r, h⟩)
      · exact ⟨[], r, by simpa using h⟩
      · exact ⟨c :: l, r, by simp [h]⟩
    · rintro ⟨l, r, h⟩
      cases l with
      | nil => exact Or.inl ⟨r, by simpa using h⟩
      | cons x xs =>
        simp only [List.cons_append, List.cons.injEq] at h
        exact Or.inr ⟨xs, r, h.2⟩

theorem isDockerfile_iff (n : String) :
    Github.isDockerfile n = true ↔ nameMatchesMarker n := by
  unfold Github.isDockerfile nameMatchesMarker markerChars
  exact hasSub_iff _ _

theorem TreeEntry.toRoot_name (e : TreeEntry) :
    (TreeEntry.toRoot e).name = e.name := by
  cases e
  rfl

theorem TreeEntry.toRoot_type (e : TreeEntry) :
    (TreeEntry.toRoot e).type = e.type := by
  cases e
  rfl

theorem TreeEntry.toRoot_subEntries (e : TreeEntry) :
    (TreeEntry.toRoot e).subEntries = e.children.map TreeEntry.toSub := by
  cases e
  rfl

theorem TreeEntry.toSub_name (e : TreeEntry) :
    (TreeEntry.toSub e).name = e.name := by
  cases e
  rfl

theorem any_comp_map {α β : Type} (f : α → β) (p : β → Bool) (l : List α) :
    (l.map f).any p = l.any fun x => p (f x) := by
  induction l with
  | nil => rfl
  | cons x xs ih => simp [ih]

theorem processPage_append (classify : ClassifyOracle) (insertFails : InsertOracle)
    (now : Nat) (t : Database.ReposTable) (xs ys : List Github.Repository) :
    processPage classify insertFails now t (xs ++ ys) =
      ((processPage classify insertFails now
          (processPage classify insertFails now t xs).1 ys).1,
       (processPage classify insertFails now t xs).2 ++
         (processPage classify insertFails now
           (processPage classify insertFails now t xs).1 ys).2) := by
  induction xs generalizing t with
  | nil => simp [processPage]
  | cons r rs ih => simp [processPage, ih, List.append_assoc]

theorem processRepo_skips (classify : ClassifyOracle) (insertFails : InsertOracle)
    (now : Nat) (r : Github.Repository)
    (h : (splitParts r.fullName).length ≠ 2) (t : Database.ReposTable) :
    processRepo classify insertFails now t r = (t, []) := by
  rcases hsp : splitParts r.fullName with _ | ⟨a, rest1⟩
  · simp [processRepo, hsp]
  rcases rest1 with _ | ⟨b, rest2⟩
  · simp [processRepo, hsp]
  rcases rest2 with _ | ⟨c, rest3⟩
  · exact absurd (by rw [hsp]; rfl) h
  · simp [processRepo, hsp]

theorem mem_url_insertRepository (t : Database.ReposTable)
    (rec : Database.Repository) (now : Nat) :
    ∃ row ∈ (Database.InsertRepository t rec now).rows, row.url = rec.url := by
  unfold Database.InsertRepository
  by_cases h : (t.rows.any fun row => row.url == rec.url) = true
  · rw [if_pos h]
    obtain ⟨row, hm, he⟩ := List.any_eq_true.mp h
    refine ⟨_, List.mem_map_of_mem _ hm, ?_⟩
    rw [if_pos he]
    simpa using he
  · rw [if_neg h]
    exact ⟨_, List.mem_append_right _ (List.mem_singleton_self _), rfl⟩

theorem mem_url_insertRepository_mono (t : Database.ReposTable)
    (rec : Database.Repository) (now : Nat) (u : String)
    (h : ∃ row ∈ t.rows, row.url = u) :
    ∃ row ∈ (Database.InsertRepository t rec now).rows, row.url = u := by
  obtain ⟨row, hm, hu⟩ := h
  unfold Database.InsertRepository
  by_cases hc : (t.rows.any fun r0 => r0.url == rec.url) = true
  · rw [if_pos hc]
    refine ⟨_, List.mem_map_of_mem _ hm, ?_⟩
    by_cases hr : (row.url == rec.url) = true
    · rw [if_pos hr]
      simpa using hu
    · rw [if_neg hr]
      exact hu
  · rw [if_neg hc]
    exact ⟨row, List.mem_append_left _ hm, hu⟩

theorem mem_url_processRepo_mono (classify : ClassifyOracle)
    (insertFails : InsertOracle) (now : Nat) (t : Database.ReposTable)
    (r : Github.Repository) (u : String)
    (h : ∃ row ∈ t.rows, row.url = u) :
    ∃ row ∈ (processRepo classify insertFails now t r).1.rows, row.url = u := by
  rcases hsp : splitParts r.fullName with _ | ⟨a, rest1⟩
  · simpa [processRepo, hsp] using h
  rcases rest1 with _ | ⟨b, rest2⟩
  · simpa [processRepo, hsp] using h
  rcases rest2 with _ | ⟨c, rest3⟩
  · by_cases hins : insertFails r.url = true
    · simpa [processRepo, hsp, hins] using h
    · simp only [processRepo, hsp]
      rw [if_neg hins]
      exact mem_url_insertRepository_mono _ _ _ _ h
  · simpa [processRepo, hsp] using h

theorem processRepo_eq_insert (classify : ClassifyOracle)
    (insertFails : InsertOracle) (now : Nat) (t : Database.ReposTable)
    (r : Github.Repository) (a b : List Char)
    (hsp : splitParts r.fullName = [a, b])
    (hins : insertFails r.url = false) :
    (processRepo classify insertFails now t r).1 =
      Database.InsertRepository t
        { id := 0, url := r.url, nameWithOwner := r.fullName,
          stargazerCount := r.stargazerCount,
          primaryLanguage := r.primaryLanguage,
          hasDockerfile :=
            (match classify (String.mk a) (String.mk b) with
              | .ok bv => bv
              | .error _ => false),
          createdAt := 0, updatedAt := 0 } now := by
  simp [processRepo, hsp, hins]

theorem processPage_mono (classify : ClassifyOracle) (insertFails : InsertOracle)
    (now : Nat) (u : String) :
    ∀ (rs : List Github.Repository) (t : Database.ReposTable),
      (∃ row ∈ t.rows, row.url = u) →
      ∃ row ∈ (processPage classify insertFails now t rs).1.rows, row.url = u := by
  intro rs
  induction rs with
  | nil =>
    intro t h
    simpa [processPage] using h
  | cons r rs ih =>
    intro t h
    simp only [processPage]
    exact ih _ (mem_url_processRepo_mono _ _ _ _ _ _ h)

theorem processPage_mem_url (classify : ClassifyOracle) (insertFails : InsertOracle)
    (now : Nat) (r : Github.Repository) (a b : List Char)
    (hsp : splitParts r.fullName = [a, b])
    (hins : insertFails r.url = false) :
    ∀ (rs : List Github.Repository) (t : Database.ReposTable), r ∈ rs →
      ∃ row ∈ (processPage classify insertFails now t rs).1.rows, row.url = r.url := by
  intro rs
  induction rs with
  | nil =>
    intro t h
    exact absurd h (List.not_mem_nil r)
  | cons r0 rs ih =>
    intro t h
    rcases List.mem_cons.mp h with rfl | hmem
    · simp only [processPage]
      refine processPage_mono classify insertFails now r.url rs _ ?_
      rw [processRepo_eq_insert classify insertFails now t r a b hsp hins]
      exact mem_url_insertRepository _ _ _
    · simp only [processPage]
      exact ih _ hmem

theorem saveSearchState_mem (store : Database.SessionStore)
    (st : Database.SearchState) (now : Nat) :
    ∃ rec ∈ (Database.SaveSearchState store st now).rows,
      rec.sessionId = st.sessionId ∧ rec.currentCursor = st.currentCursor ∧
      rec.isCompleted = st.isCompleted ∧ rec.totalFetched = st.totalFetched := by
  unfold Database.SaveSearchState
  by_cases h : (store.rows.any fun row => row.sessionId == st.sessionId) = true
  · rw [if_pos h]
    obtain ⟨row, hm, he⟩ := List.any_eq_true.mp h
    refine ⟨_, List.mem_map_of_mem _ hm, ?_⟩
    rw [if_pos he]
    exact ⟨by simpa using he, rfl, rfl, rfl⟩
  · rw [if_neg h]
    exact ⟨_, List.mem_append_right _ (List.mem_singleton_self _), rfl, rfl, rfl, rfl⟩

/-! ## Claims -/

/-- C4: over any repository file tree, the classifier applied to the
two-level listing fetched by `GetRepositoryFilesQuery` returns true iff
some root-level entry name contains `dockerfile` case-insensitively, or
some root-level entry of type `tree` has a direct child whose name
does; and on a synthetic tree whose only matching name sits two levels
below the root it returns false. -/
theorem hasDockerfile_two_level_scan :
    (∀ roots : List TreeEntry,
      Github.HasDockerfile (toResponse roots) = true ↔
        ((∃ e ∈ roots, nameMatchesMarker e.name) ∨
         (∃ e ∈ roots, e.type = "tree" ∧
            ∃ s ∈ e.children, nameMatchesMarker s.name))) ∧
    Github.HasDockerfile (toResponse deepTree) = false := by
  constructor
  · intro roots
    simp only [Github.HasDockerfile, toResponse]
    rw [any_comp_map]
    simp only [TreeEntry.toRoot_name, TreeEntry.toRoot_type,
      TreeEntry.toRoot_subEntries, any_comp_map]
    simp only [List.any_eq_true, TreeEntry.toSub_name,
      Bool.or_eq_true, Bool.and_eq_true, beq_iff_eq, isDockerfile_iff]
    constructor
    · rintro ⟨e, he, h | ⟨hty, s, hs, hm⟩⟩
      · exact Or.inl ⟨e, he, h⟩
      · exact Or.inr ⟨e, he, hty, s, hs, hm⟩
    · rintro (⟨e, he, h⟩ | ⟨e, he, hty, s, hs, hm⟩)
      · exact ⟨e, he, Or.inl h⟩
      · exact ⟨e, he, Or.inr ⟨hty, s, hs, hm⟩⟩
  · decide

/-- C2: upserting two records with the same URL into a table that does
not yet hold that URL leaves exactly one row for it; that row carries
the mutable fields of the second record, the identity (`id`) and
`createdAt` assigned by the first call, and the second call's
timestamp as `updatedAt`. -/
theorem insertRepository_twice_second_wins
    (t : Database.ReposTable) (r1 r2 : Database.Repository) (n1 n2 : Nat)
    (hurl : r1.url = r2.url)
    (hstars : r1.stargazerCount ≠ r2.stargazerCount)
    (hfresh : ∀ row ∈ t.rows, row.url ≠ r1.url) :
    ((Database.InsertRepository (Database.InsertRepository t r1 n1) r2 n2).rows.countP
        (fun row => row.url == r1.url) = 1) ∧
    ∃ row ∈ (Database.InsertRepository (Database.InsertRepository t r1 n1) r2 n2).rows,
      row.url = r1.url ∧
      row.nameWithOwner = r2.nameWithOwner ∧
      row.stargazerCount = r2.stargazerCount ∧
      row.primaryLanguage = r2.primaryLanguage ∧
      row.hasDockerfile = r2.hasDockerfile ∧
      row.id = t.nextId ∧ row.createdAt = n1 ∧ row.updatedAt = n2 := by
  have hc1 : ¬(t.rows.any (fun row => row.url == r1.url) = true) := by
    intro h
    obtain ⟨row, hm, he⟩ := List.any_eq_true.mp h
    exact hfresh row hm (by simpa using he)
  have h1 : Database.InsertRepository t r1 n1 =
      { rows := t.rows ++
          [{ id := t.nextId, url := r1.url, nameWithOwner := r1.nameWithOwner,
             stargazerCount := r1.stargazerCount,
             primaryLanguage := r1.primaryLanguage,
             hasDockerfile := r1.hasDockerfile,
             createdAt := n1, updatedAt := n1 }],
        nextId := t.nextId + 1 } := by
    unfold Database.InsertRepository
    rw [if_neg hc1]
  rw [h1]
  simp only [Database.InsertRepository]
  have hc2 : ((t.rows ++
      [({ id := t.nextId, url := r1.url, nameWithOwner := r1.nameWithOwner,
          stargazerCount := r1.stargazerCount,
          primaryLanguage := r1.primaryLanguage,
          hasDockerfile := r1.hasDockerfile,
          createdAt := n1, updatedAt := n1 } : Database.Repository)]).any
        (fun row => row.url == r2.url)) = true := by
    refine List.any_eq_true.mpr ⟨_, List.mem_append_right _ (List.mem_singleton_self _), ?_⟩
    simp [hurl]
  rw [if_pos hc2]
  rw [List.map_append]
  have hmapfix : (t.rows.map fun row =>
      if row.url == r2.url then
        { row with
          nameWithOwner := r2.nameWithOwner
          stargazerCount := r2.stargazerCount
          primaryLanguage := r2.primaryLanguage
          hasDockerfile := r2.hasDockerfile
          updatedAt := n2 }
      else row) = t.rows := by
    refine List.map_congr_left ?_ |>.trans t.rows.map_id
    intro row hm
    rw [if_neg (by simp only [beq_iff_eq]; rw [← hurl]; exact hfresh row hm)]
    rfl
  rw [hmapfix]
  constructor
  · rw [List.countP_append]
    have hz : t.rows.countP (fun row => row.url == r1.url) = 0 := by
      rw [List.countP_eq_zero]
      intro row hm
      simpa using hfresh row hm
    rw [hz]
    simp [hurl]
  · have hmem : ({ id := t.nextId, url := r1.url, nameWithOwner := r2.nameWithOwner,
                   stargazerCount := r2.stargazerCount,
                   primaryLanguage := r2.primaryLanguage,
                   hasDockerfile := r2.hasDockerfile,
                   createdAt := n1, updatedAt := n2 } : Database.Repository) ∈
        ([({ id := t.nextId, url := r1.url, nameWithOwner := r1.nameWithOwner,
             stargazerCount := r1.stargazerCount,
             primaryLanguage := r1.primaryLanguage,
             hasDockerfile := r1.hasDockerfile,
             createdAt := n1, updatedAt := n1 } : Database.Repository)].map fun row =>
          if row.url == r2.url then
            { row with
              nameWithOwner := r2.nameWithOwner
              stargazerCount := r2.stargazerCount
              primaryLanguage := r2.primaryLanguage
              hasDockerfile := r2.hasDockerfile
              updatedAt := n2 }
          else row) := by
      simp [hurl]
    exact ⟨_, List.mem_append_right _ hmem, rfl, rfl, rfl, rfl, rfl, rfl, rfl, rfl⟩

/-- C2 exercised: a fresh URL upserted twice with different star counts
on the empty table. -/
theorem insertRepository_twice_second_wins_holds :
    ((Database.InsertRepository (Database.InsertRepository wTable wDbRepo1 10) wDbRepo1b 11).rows.countP
        (fun row => row.url == wDbRepo1.url) = 1) ∧
    ∃ row ∈ (Database.InsertRepository (Database.InsertRepository wTable wDbRepo1 10) wDbRepo1b 11).rows,
      row.url = wDbRepo1.url ∧
      row.nameWithOwner = wDbRepo1b.nameWithOwner ∧
      row.stargazerCount = wDbRepo1b.stargazerCount ∧
      row.primaryLanguage = wDbRepo1b.primaryLanguage ∧
      row.hasDockerfile = wDbRepo1b.hasDockerfile ∧
      row.id = wTable.nextId ∧ row.createdAt = 10 ∧ row.updatedAt = 11 :=
  insertRepository_twice_second_wins wTable wDbRepo1 wDbRepo1b 10 11
    rfl (by decide) (by decide)

/-- C6: the collector treats `hasNextPage = false` and
`endCursor = null` as equivalent terminal signals — the pagination
decision yields a next cursor exactly when `hasNextPage` is true and
the cursor is non-null, and the page loop recurses exactly under that
same condition, stopping otherwise after the current page. -/
theorem pagination_terminal_signals :
    (∀ p : Github.PageInfo,
      (nextCursorIfContinue p = none ↔
        (p.hasNextPage = false ∨ p.endCursor = none)) ∧
      ∀ c, (nextCursorIfContinue p = some c ↔
        (p.hasNextPage = true ∧ p.endCursor = some c))) ∧
    ∀ (classify : ClassifyOracle) (insertFails : InsertOracle) (now : Nat)
      (t : Database.ReposTable) (resp : Github.RepositoriesResponse)
      (rest : List Github.RepositoriesResponse),
      (runLoop classify insertFails now t (resp :: rest)).2 =
        if resp.pageInfo.hasNextPage && resp.pageInfo.endCursor.isSome then
          (runLoop classify insertFails now
            (processPage classify insertFails now t resp.repositories).1 rest).2 + 1
        else 1 := by
  constructor
  · rintro ⟨hnp, ec⟩
    cases hnp <;> rcases ec with _ | c <;> simp [nextCursorIfContinue]
  · intro classify insertFails now t resp rest
    rcases resp with ⟨repos, ⟨hnp, ec⟩⟩
    cases hnp <;> rcases ec with _ | c <;> simp [runLoop, nextCursorIfContinue]

/-- C9: loading a session identifier from the session store yields the
stored record when the identifier is known, and the explicit absent
result — never an error — when it is unknown. -/
theorem loadSearchState_found_or_absent
    (store : Database.SessionStore) (sessionId : String) :
    ((∃ st ∈ store.rows, st.sessionId = sessionId) →
      ∃ st ∈ store.rows, st.sessionId = sessionId ∧
        Database.LoadSearchState store sessionId = .ok (some st)) ∧
    ((∀ st ∈ store.rows, st.sessionId ≠ sessionId) →
      Database.LoadSearchState store sessionId = .ok none) ∧
    ∀ e, Database.LoadSearchState store sessionId ≠ .error e := by
  refine ⟨?_, ?_, ?_⟩
  · rintro ⟨st, hm, hs⟩
    have hsome : (store.rows.find? fun row => row.sessionId == sessionId).isSome := by
      rw [List.find?_isSome]
      exact ⟨st, hm, by simp [hs]⟩
    obtain ⟨st2, hfind⟩ := Option.isSome_iff_exists.mp hsome
    refine ⟨st2, List.mem_of_find?_eq_some hfind, ?_, ?_⟩
    · simpa using List.find?_some hfind
    · unfold Database.LoadSearchState
      rw [hfind]
  · intro habs
    have hnone : store.rows.find? (fun row => row.sessionId == sessionId) = none := by
      rw [List.find?_eq_none]
      intro x hx
      simpa using habs x hx
    unfold Database.LoadSearchState
    rw [hnone]
  · intro e
    unfold Database.LoadSearchState
    cases store.rows.find? (fun row => row.sessionId == sessionId) <;> simp

/-- C9 exercised: the sample store resolves a known identifier to its
record and an unknown identifier to the absent result. -/
theorem loadSearchState_found_or_absent_holds :
    (∃ st ∈ wStore.rows, st.sessionId = "sess-1" ∧
        Database.LoadSearchState wStore "sess-1" = .ok (some st)) ∧
    Database.LoadSearchState wStore "nope" = .ok none :=
  ⟨(loadSearchState_found_or_absent wStore "sess-1").1 (by decide),
   (loadSearchState_found_or_absent wStore "nope").2.1 (by decide)⟩

/-- C10: a repository whose full name does not split on `/` into
exactly two parts is skipped entirely by the loop body — the table is
untouched, no log line (hence no error) is produced, regardless of the
classification and insert oracles, and the page processes as if the
repository were absent. -/
theorem malformed_fullname_is_skipped
    (r : Github.Repository)
    (h : (splitParts r.fullName).length ≠ 2) :
    ∀ (classify : ClassifyOracle) (insertFails : InsertOracle) (now : Nat)
      (t : Database.ReposTable) (pre suf : List Github.Repository),
      processRepo classify insertFails now t r = (t, []) ∧
      processPage classify insertFails now t (pre ++ r :: suf) =
        processPage classify insertFails now t (pre ++ suf) := by
  intro classify insertFails now t pre suf
  refine ⟨processRepo_skips classify insertFails now r h t, ?_⟩
  rw [processPage_append, processPage_append]
  have hone : ∀ t0 : Database.ReposTable,
      processPage classify insertFails now t0 (r :: suf) =
        processPage classify insertFails now t0 suf := by
    intro t0
    simp [processPage, processRepo_skips classify insertFails now r h t0]
  rw [hone]

/-- C10 exercised: a slash-free full name inside a two-element page. -/
theorem malformed_fullname_is_skipped_holds :
    processRepo wClassifyTrue wInsertOk 0 wTable wRepoBad = (wTable, []) ∧
    processPage wClassifyTrue wInsertOk 0 wTable ([] ++ wRepoBad :: [wRepo1]) =
      processPage wClassifyTrue wInsertOk 0 wTable ([] ++ [wRepo1]) :=
  malformed_fullname_is_skipped wRepoBad (by decide)
    wClassifyTrue wInsertOk 0 wTable [] [wRepo1]

/-- C5: a classification error for one repository does not abort its
processing — the repository is upserted with the marker flag forced to
false, the error is logged, and the loop continues with the remaining
repositories of the page. -/
theorem classification_error_is_isolated
    (classify : ClassifyOracle) (insertFails : InsertOracle) (now : Nat)
    (r : Github.Repository) (a b : List Char) (e : String)
    (hsp : splitParts r.fullName = [a, b])
    (herr : classify (String.mk a) (String.mk b) = .error e)
    (hins : insertFails r.url = false) :
    ∀ (t : Database.ReposTable) (pre suf : List Github.Repository),
      processPage classify insertFails now t (pre ++ r :: suf) =
        ((processPage classify insertFails now
            (Database.InsertRepository
              (processPage classify insertFails now t pre).1
              { id := 0, url := r.url, nameWithOwner := r.fullName,
                stargazerCount := r.stargazerCount,
                primaryLanguage := r.primaryLanguage,
                hasDockerfile := false, createdAt := 0, updatedAt := 0 } now)
            suf).1,
         (processPage classify insertFails now t pre).2 ++
           LogEntry.classifyError r.fullName e ::
             LogEntry.saved r.fullName ::
               (processPage classify insertFails now
                 (Database.InsertRepository
                   (processPage classify insertFails now t pre).1
                   { id := 0, url := r.url, nameWithOwner := r.fullName,
                     stargazerCount := r.stargazerCount,
                     primaryLanguage := r.primaryLanguage,
                     hasDockerfile := false, createdAt := 0, updatedAt := 0 } now)
                 suf).2) := by
  intro t pre suf
  rw [processPage_append]
  have hstep : processRepo classify insertFails now
      (processPage classify insertFails now t pre).1 r =
      (Database.InsertRepository
        (processPage classify insertFails now t pre).1
        { id := 0, url := r.url, nameWithOwner := r.fullName,
          stargazerCount := r.stargazerCount,
          primaryLanguage := r.primaryLanguage,
          hasDockerfile := false, createdAt := 0, updatedAt := 0 } now,
       [LogEntry.classifyError r.fullName e, LogEntry.saved r.fullName]) := by
    simp [processRepo, hsp, herr, hins]
  simp [processPage, hstep]

/-- C5 exercised: a one-repository page whose classification call
fails, followed by nothing. -/
theorem classification_error_is_isolated_holds :
    processPage wClassifyBoom wInsertOk 0 wTable ([] ++ wRepo1 :: []) =
      ((processPage wClassifyBoom wInsertOk 0
          (Database.InsertRepository
            (processPage wClassifyBoom wInsertOk 0 wTable []).1
            { id := 0, url := wRepo1.url, nameWithOwner := wRepo1.fullName,
              stargazerCount := wRepo1.stargazerCount,
              primaryLanguage := wRepo1.primaryLanguage,
              hasDockerfile := false, createdAt := 0, updatedAt := 0 } 0)
          []).1,
       (processPage wClassifyBoom wInsertOk 0 wTable []).2 ++
         LogEntry.classifyError wRepo1.fullName "boom" ::
           LogEntry.saved wRepo1.fullName ::
             (processPage wClassifyBoom wInsertOk 0
               (Database.InsertRepository
                 (processPage wClassifyBoom wInsertOk 0 wTable []).1
                 { id := 0, url := wRepo1.url, nameWithOwner := wRepo1.fullName,
                   stargazerCount := wRepo1.stargazerCount,
                   primaryLanguage := wRepo1.primaryLanguage,
                   hasDockerfile := false, createdAt := 0, updatedAt := 0 } 0)
               []).2) :=
  classification_error_is_isolated wClassifyBoom wInsertOk 0 wRepo1
    "own".toList "alpha".toList "boom" (by decide) rfl rfl wTable [] []

/-- C8: a store-write failure for one repository skips exactly that
repository — the final table is the one obtained by processing the page
without it — while the failure is logged and the remaining repositories
of the page are still processed. -/
theorem insert_error_skips_repository
    (classify : ClassifyOracle) (insertFails : InsertOracle) (now : Nat)
    (r : Github.Repository) (a b : List Char)
    (hsp : splitParts r.fullName = [a, b])
    (hfail : insertFails r.url = true) :
    ∀ (t : Database.ReposTable) (pre suf : List Github.Repository),
      (processPage classify insertFails now t (pre ++ r :: suf)).1 =
        (processPage classify insertFails now
          (processPage classify insertFails now t pre).1 suf).1 ∧
      LogEntry.saveError r.fullName ∈
        (processPage classify insertFails now t (pre ++ r :: suf)).2 := by
  intro t pre suf
  have hstep : processRepo classify insertFails now
      (processPage classify insertFails now t pre).1 r =
      ((processPage classify insertFails now t pre).1,
       (match classify (String.mk a) (String.mk b) with
         | .ok _ => ([] : List LogEntry)
         | .error e0 => [LogEntry.classifyError r.fullName e0]) ++
         [LogEntry.saveError r.fullName]) := by
    simp [processRepo, hsp, hfail]
  constructor
  · rw [processPage_append]
    simp [processPage, hstep]
  · rw [processPage_append]
    simp only [processPage, hstep, List.mem_append]
    refine Or.inr (Or.inl ?_)
    cases classify (String.mk a) (String.mk b) <;> simp

/-- C8 exercised: a two-repository page whose first write fails. -/
theorem insert_error_skips_repository_holds :
    (processPage wClassifyTrue wInsertFailR1 0 wTable ([] ++ wRepo1 :: [wRepo2])).1 =
      (processPage wClassifyTrue wInsertFailR1 0
        (processPage wClassifyTrue wInsertFailR1 0 wTable []).1 [wRepo2]).1 ∧
    LogEntry.saveError wRepo1.fullName ∈
      (processPage wClassifyTrue wInsertFailR1 0 wTable ([] ++ wRepo1 :: [wRepo2])).2 :=
  insert_error_skips_repository wClassifyTrue wInsertFailR1 0 wRepo1
    "own".toList "alpha".toList (by decide) rfl wTable [] [wRepo2]

/-- C1: after a successful page step, the in-memory session record and
the saved session-progress record both carry the page's next cursor as
the new cursor, `completed = not hasNextPage`, and the total raised by
the batch size — and the repository table paired with that advanced
cursor already contains a row for every batch repository whose name
split and store write succeeded, so the cursor never advances ahead of
the page's persisted repositories. -/
theorem page_step_persists_then_advances
    (classify : ClassifyOracle) (insertFails : InsertOracle) (now : Nat)
    (st : Database.SearchState) (store : Database.SessionStore)
    (t : Database.ReposTable) (p : Github.RepositoriesResponse)
    (r : Github.Repository) (a b : List Char)
    (hr : r ∈ p.repositories)
    (hsp : splitParts r.fullName = [a, b])
    (hins : insertFails r.url = false) :
    (pageStep classify insertFails now st store t p).2.2.currentCursor =
      p.pageInfo.endCursor ∧
    (pageStep classify insertFails now st store t p).2.2.isCompleted =
      !p.pageInfo.hasNextPage ∧
    (∃ rec ∈ (pageStep classify insertFails now st store t p).2.1.rows,
      rec.sessionId = st.sessionId ∧
      rec.currentCursor = p.pageInfo.endCursor ∧
      rec.isCompleted = (!p.pageInfo.hasNextPage) ∧
      rec.totalFetched = st.totalFetched + p.repositories.length) ∧
    ∃ row ∈ (pageStep classify insertFails now st store t p).1.rows,
      row.url = r.url := by
  refine ⟨rfl, rfl, ?_, ?_⟩
  · exact saveSearchState_mem store
      { st with
        currentCursor := p.pageInfo.endCursor
        totalFetched := st.totalFetched + p.repositories.length
        isCompleted := !p.pageInfo.hasNextPage } now
  · exact processPage_mem_url classify insertFails now r a b hsp hins
      p.repositories t hr

/-- C1 exercised: a two-repository page advanced over the sample
session. -/
theorem page_step_persists_then_advances_holds :
    (pageStep wClassifyTrue wInsertOk 7 wState wStore wTable wPage).2.2.currentCursor =
      wPage.pageInfo.endCursor ∧
    (pageStep wClassifyTrue wInsertOk 7 wState wStore wTable wPage).2.2.isCompleted =
      !wPage.pageInfo.hasNextPage ∧
    (∃ rec ∈ (pageStep wClassifyTrue wInsertOk 7 wState wStore wTable wPage).2.1.rows,
      rec.sessionId = wState.sessionId ∧
      rec.currentCursor = wPage.pageInfo.endCursor ∧
      rec.isCompleted = (!wPage.pageInfo.hasNextPage) ∧
      rec.totalFetched = wState.totalFetched + wPage.repositories.length) ∧
    ∃ row ∈ (pageStep wClassifyTrue wInsertOk 7 wState wStore wTable wPage).1.rows,
      row.url = wRepo1.url :=
  page_step_persists_then_advances wClassifyTrue wInsertOk 7 wState wStore wTable
    wPage wRepo1 "own".toList "alpha".toList (by decide) (by decide) rfl

/-- C3: resuming a session whose stored record is completed is a
terminal no-op — the run reports the already-final total, leaves both
stores untouched, and issues zero page fetches. -/
theorem resume_completed_is_noop
    (classify : ClassifyOracle) (insertFails : InsertOracle) (now : Nat)
    (store : Database.SessionStore) (t : Database.ReposTable)
    (sessionId : String) (script : List (Option Github.RepositoriesResponse))
    (st : Database.SearchState)
    (hfind : store.rows.find? (fun row => row.sessionId == sessionId) = some st)
    (hdone : st.isCompleted = true) :
    resumeRun classify insertFails now store t sessionId script =
      (RunOutcome.alreadyCompleted st.totalFetched, store, t, 0) := by
  unfold resumeRun Database.LoadSearchState
  rw [hfind]
  simp [hdone]

/-- C3 exercised: resuming the completed sample session issues no fetch
and reports its stored total. -/
theorem resume_completed_is_noop_holds :
    resumeRun wClassifyTrue wInsertOk 0 wStore wTable "sess-2"
        [some wPage] =
      (RunOutcome.alreadyCompleted 300, wStore, wTable, 0) :=
  resume_completed_is_noop wClassifyTrue wInsertOk 0 wStore wTable "sess-2"
    [some wPage] wStateDone (by decide) rfl

/-- C7: when the page fetch fails, the session orchestrator halts with
a recoverable signal naming the session identifier, after saving a
session-progress record that keeps the last known-good cursor and has
`completed = false`. -/
theorem fetch_failure_persists_cursor
    (classify : ClassifyOracle) (insertFails : InsertOracle) (now : Nat)
    (st : Database.SearchState) (store : Database.SessionStore)
    (t : Database.ReposTable)
    (rest : List (Option Github.RepositoriesResponse)) :
    (sessionLoop classify insertFails now st store t (none :: rest)).1 =
      RunOutcome.halted st.sessionId ∧
    ∃ rec ∈ (sessionLoop classify insertFails now st store t (none :: rest)).2.1.rows,
      rec.sessionId = st.sessionId ∧
      rec.currentCursor = st.currentCursor ∧
      rec.isCompleted = false := by
  refine ⟨rfl, ?_⟩
  obtain ⟨rec, hm, h1, h2, h3, _⟩ :=
    saveSearchState_mem store { st with isCompleted := false } now
  exact ⟨rec, hm, h1, h2, h3⟩

end GhRepoResearch
